import Mathlib

/-!
Verification of the sweep orchestrator `IBPHMMinference` (file
`IBPHMMinference.py`).  The source is a direct port of MATLAB driver code:
it reads settings, initializes concentration hyperparameters and the
feature matrix, bootstraps the model parameters, and builds the flattened
evaluation arrays (`cummlength`, `z_tot`, `true_labels_tot`).  Slice
assignments written in MATLAB's 1-based inclusive style
(`arr(a+1:b) = v`) are embedded 0-based as `writeSlice arr a v`.
Mappings (`settings`, `data_struct` records) become association lists and
structures; numeric hyperparameters become rationals, with Python's
division-by-zero failure made explicit in an `Except`.
The per-iteration Gibbs sweep described by the specification is not present
in the source file (the file ends after the flattening block), so it is
modelled from the specification where a claim needs it.
-/

namespace IBPHMM

/-- One record of `data_struct`: the per-object ground-truth labels
(`true_labels`, used only for the flattened evaluation arrays) and the
optional initial state labels (`z_init`, used to seed the feature matrix). -/
structure DataObj where
  true_labels : List Int
  z_init : List Nat
deriving Repr, DecidableEq, Inhabited

/-- The settings mapping, embedded as an association list from option name
to integer value (only presence of keys and the `saveMin` value matter to
the orchestrator logic verified here). -/
abbrev Settings := List (String × Int)

/-- Lines 14-15: `if 'saveMin' !in settings.keys(): settings['saveMin'] = 1`.
A fresh key assigned into a Python dict is appended after the existing
entries. -/
def setSaveMinDefault (settings : Settings) : Settings :=
  if "saveMin" ∈ settings.map Prod.fst then settings
  else settings ++ [("saveMin", 1)]

/-- The prior hyperparameter structure `model['HMMmodel']['params']`
(shape/rate pairs for the gamma priors on the concentration parameters). -/
structure HMMhyperparams where
  a_alpha : ℚ
  b_alpha : ℚ
  a_kappa : ℚ
  b_kappa : ℚ
  a_gamma : ℚ
  b_gamma : ℚ
deriving Repr, DecidableEq

/-- The concentration parameters initialized at lines 33-36. -/
structure Hyperparams where
  alpha0 : ℚ
  kappa0 : ℚ
  sigma0 : ℚ
  gamma0 : ℚ
deriving Repr, DecidableEq

/-- Lines 33-36: `hyperparams['alpha0'] = a_alpha/b_alpha`, etc., with
`sigma0 = 1` a constant.  The source divides directly; in Python a zero
rate raises a `ZeroDivisionError`, which the embedding makes explicit as
an `Except.error` (checked in the order the source evaluates the
divisions). -/
def initHyperparams (p : HMMhyperparams) : Except String Hyperparams :=
  if p.b_alpha = 0 then .error "ZeroDivisionError"
  else if p.b_kappa = 0 then .error "ZeroDivisionError"
  else if p.b_gamma = 0 then .error "ZeroDivisionError"
  else .ok
    { alpha0 := p.a_alpha / p.b_alpha
      kappa0 := p.a_kappa / p.b_kappa
      sigma0 := 1
      gamma0 := p.a_gamma / p.b_gamma }

/-- Line 40: the condition guarding the label-based feature-matrix branch,
`'formZinit' in settings.keys()`. -/
def feature_branch_uses_labels (settings : Settings) : Bool :=
  "formZinit" ∈ settings.map Prod.fst

/-- Line 60: the condition guarding the label-constrained initial
state-sequence branch, `'formZInit' in settings.keys()` (note the
capital `I`, different from line 40). -/
def initseq_branch_uses_labels (settings : Settings) : Bool :=
  "formZInit" ∈ settings.map Prod.fst

/-- Lines 40-42: `F[jj, unique(data_struct[jj].z_init)] = 1`, all other
entries staying 0.  `F_fromZinit data jj k` is the entry of `F` at row
`jj`, column `k`. -/
def F_fromZinit (data : List DataObj) (jj k : Nat) : Bool :=
  decide (k ∈ ((data.getD jj default).z_init).dedup)

/-- Line 44: `F = np.ones([numObj,20])`, the default dense feature matrix. -/
def F_default (numObj : Nat) (jj k : Nat) : Bool :=
  decide (jj < numObj) && decide (k < 20)

/-- Example observation set carrying initial labels `{0: [0,2,2], 1: [1]}`. -/
def exLabels : List DataObj := [⟨[], [0, 2, 2]⟩, ⟨[], [1]⟩]

/-- Lines 60-67: both branches of the `'formZInit'` test assign
`numInitThetaSamples = 1`. -/
def numInitThetaSamples (hasFormZInit : Bool) : Nat :=
  if hasFormZInit then 1 else 1

/-- Lines 70-71: `for ii in range(0, numInitThetaSamples): theta =
sample_theta(theta, Ustats, obsModel, 0)`, threaded with a count of the
`sample_theta` invocations made so far.  The sampler is abstract; its
second argument is the `numObj` argument the source passes. -/
def thetaLoop {Θ : Type} (sampleTheta : Θ → Nat → Θ) : Nat → Θ × Nat → Θ × Nat
  | 0, p => p
  | n + 1, (θ, c) => thetaLoop sampleTheta n (sampleTheta θ 0, c + 1)

/-- Lines 69-71: the initial draw `theta = sample_theta(theta, Ustats,
obsModel, numObj)` followed by the `numInitThetaSamples` burn-in passes.
Returns the final `theta` together with the total number of
`sample_theta` invocations. -/
def bootstrapTheta {Θ : Type} (sampleTheta : Θ → Nat → Θ) (θ0 : Θ)
    (numObj : Nat) (hasFormZInit : Bool) : Θ × Nat :=
  thetaLoop sampleTheta (numInitThetaSamples hasFormZInit) (sampleTheta θ0 numObj, 1)

/-- Lines 90-93: `length_ii(ii) = length(data_struct(ii).true_labels)`. -/
def length_ii (data : List DataObj) : List Nat :=
  data.map (fun d => d.true_labels.length)

/-- Lines 89-93: `total_length`, accumulated over the objects. -/
def total_length (data : List DataObj) : Nat :=
  (length_ii data).sum

/-- `np.cumsum`: inclusive cumulative sums of a list. -/
def cumsum : List Nat → List Nat
  | [] => []
  | x :: xs => x :: (cumsum xs).map (x + ·)

/-- Line 95: `cummlength = np.cumsum(length_ii)`. -/
def cummlength (data : List DataObj) : List Nat :=
  cumsum (length_ii data)

/-- Line 96: `z_tot = np.zeros([1, cummlength[-1]])`, an all-zeros array of
length equal to the final cumulative length.  The source never writes into
it afterwards. -/
def z_tot (data : List DataObj) : List Int :=
  List.replicate ((cummlength data).getLastD 0) 0

/-- MATLAB-style slice assignment `arr(start+1 : start+len(vals)) = vals`,
written 0-based: the slice `[start, start+len(vals))` of `arr` is replaced
by `vals`. -/
def writeSlice (arr : List Int) (start : Nat) (vals : List Int) : List Int :=
  arr.take start ++ vals ++ arr.drop (start + vals.length)

/-- Lines 97-100: `true_labels_tot` is allocated as zeros of length
`cummlength[-1]` and then each object's `true_labels` is written at its
offset — object 1 at offset 0 (line 98) and object `ii` at offset
`cummlength(ii-1)` (line 100); the offsets are exactly the entries of
`0 :: cummlength`. -/
def true_labels_tot (data : List DataObj) : List Int :=
  ((data.map (fun d => d.true_labels)).zip (0 :: cummlength data)).foldl
    (fun arr p => writeSlice arr p.2 p.1)
    (List.replicate ((cummlength data).getLastD 0) 0)

/-- The flattened offset of object `i`: 0 for the first object and
`cummlength(i-1)` afterwards (line 98 / line 100). -/
def offsetOf (data : List DataObj) (i : Nat) : Nat :=
  (0 :: cummlength data).getD i 0

/-- Example observation set of the end-to-end scenario: 2 objects with
`true_labels` of lengths 5 and 3. -/
def exTwoObj : List DataObj :=
  [⟨[10, 11, 12, 13, 14], []⟩, ⟨[20, 21, 22], []⟩]

/-- Modelled from the spec: the per-iteration samplers of §4.4 (the
iteration loop is absent from `IBPHMMinference.py` — the file ends after
the flattening block — so the samplers are abstracted exactly as the
spec's external interfaces §6: transition-distribution sampler, per-object
state-sequence sampler, sufficient-statistics updater, parameter sampler,
and hyperparameter/feature resampler). -/
structure GibbsSamplers (D Z U Θ H : Type) where
  sample_dist : U → H → D
  sample_z : D → Θ → Z
  update_Ustats : Z → U
  sample_theta : U → Θ
  sample_hyper : H → U → H

/-- Modelled from the spec: the model-state bundle of §3 (transition
distributions, state sequences, sufficient statistics, parameters,
hyperparameters). -/
structure SweepState (D Z U Θ H : Type) where
  dist_struct : D
  stateSeq : Z
  Ustats : U
  theta : Θ
  hyper : H
deriving Repr, DecidableEq, Inhabited

/-- The snapshot a test double records for one iteration: the inputs each
step read and the outputs each step produced, plus the iteration index
passed to the stats recorder in step (f). -/
structure StepTrace (D Z U Θ H : Type) where
  a_in_U : U
  a_out : D
  b_in_dist : D
  b_in_theta : Θ
  b_out : Z
  c_in : Z
  c_out : U
  d_in : U
  d_out : Θ
  e_out : H
  f_iter : Nat
deriving Repr, DecidableEq, Inhabited

/-- Modelled from the spec: one Gibbs iteration, §4.4 steps (a)-(f) in
fixed order — (a) resample transition distributions from the current
sufficient statistics and hyperparameters, (b) resample state sequences
from the step-(a) distributions and current parameters, (c) recompute
sufficient statistics from the new state sequences, (d) resample
parameters from the new sufficient statistics, (e) resample
hyperparameters, (f) invoke the stats recorder with the iteration index.
Returns the new state and the iteration's recorded snapshot. -/
def sweepStep {D Z U Θ H : Type} (g : GibbsSamplers D Z U Θ H) (i : Nat)
    (st : SweepState D Z U Θ H) :
    SweepState D Z U Θ H × StepTrace D Z U Θ H :=
  let dist := g.sample_dist st.Ustats st.hyper
  let z := g.sample_z dist st.theta
  let u := g.update_Ustats z
  let th := g.sample_theta u
  let hy := g.sample_hyper st.hyper u
  (⟨dist, z, u, th, hy⟩,
   ⟨st.Ustats, dist, dist, st.theta, z, z, u, u, th, hy, i⟩)

/-- Modelled from the spec: the iterations `i, i+1, …` for `n` steps,
threading the state and collecting the per-iteration snapshots in order. -/
def sweepAux {D Z U Θ H : Type} (g : GibbsSamplers D Z U Θ H) :
    Nat → Nat → SweepState D Z U Θ H →
    SweepState D Z U Θ H × List (StepTrace D Z U Θ H)
  | _, 0, st => (st, [])
  | i, n + 1, st =>
    ((sweepAux g (i + 1) n (sweepStep g i st).1).1,
     (sweepStep g i st).2 :: (sweepAux g (i + 1) n (sweepStep g i st).1).2)

/-- Modelled from the spec: the full sweep `Iterating(1) … Iterating(Niter)`
starting from the bootstrapped state. -/
def sweepTraced {D Z U Θ H : Type} (g : GibbsSamplers D Z U Θ H)
    (Niter : Nat) (st0 : SweepState D Z U Θ H) :
    SweepState D Z U Θ H × List (StepTrace D Z U Θ H) :=
  sweepAux g 1 Niter st0

/-- Concrete instrumentation instance used to exercise the sweep model. -/
def gDemo : GibbsSamplers Nat Nat Nat Nat Nat :=
  ⟨fun u h => u + 2 * h + 1, fun d th => 3 * d + th,
   fun z => z + 5, fun u => u + 7, fun h u => h + u⟩

/-- Concrete bootstrapped state used to exercise the sweep model. -/
def stDemo : SweepState Nat Nat Nat Nat Nat := ⟨0, 0, 1, 2, 3⟩

end IBPHMM

namespace IBPHMM

/- ### Claim theorems (first group) -/

/-- C5: hyperparameter initialization is the pure deterministic transform
`alpha0 = a_alpha/b_alpha`, `kappa0 = a_kappa/b_kappa`, `sigma0 = 1`
(independent of the priors), `gamma0 = a_gamma/b_gamma`; identical priors
give identical values. -/
theorem initHyperparams_spec (p q : HMMhyperparams)
    (ha : 0 < p.b_alpha) (hk : 0 < p.b_kappa) (hg : 0 < p.b_gamma) :
    initHyperparams p = .ok
      { alpha0 := p.a_alpha / p.b_alpha
        kappa0 := p.a_kappa / p.b_kappa
        sigma0 := 1
        gamma0 := p.a_gamma / p.b_gamma } ∧
    (p = q → initHyperparams p = initHyperparams q) := by
  refine ⟨?_, fun h => by rw [h]⟩
  unfold initHyperparams
  rw [if_neg (ne_of_gt ha), if_neg (ne_of_gt hk), if_neg (ne_of_gt hg)]

/-- Witness for C5 at concrete positive priors. -/
theorem initHyperparams_spec_witness :
    initHyperparams ⟨1, 2, 3, 4, 5, 8⟩ = .ok
      { alpha0 := 1 / 2, kappa0 := 3 / 4, sigma0 := 1, gamma0 := 5 / 8 } :=
  (initHyperparams_spec ⟨1, 2, 3, 4, 5, 8⟩ ⟨1, 2, 3, 4, 5, 8⟩
    (by norm_num) (by norm_num) (by norm_num)).1

/-- C8 counterexample: with the negative rate `b_alpha = -1` the
initialization does not fail at all (no `ConfigError`, no error of any
kind): it silently returns `alpha0 = -1`. -/
theorem initHyperparams_negative_rate_no_error :
    initHyperparams ⟨1, -1, 1, 1, 1, 1⟩ =
      .ok { alpha0 := -1, kappa0 := 1, sigma0 := 1, gamma0 := 1 } := by
  norm_num [initHyperparams]

/-- C8 amended: initialization fails (with a division-by-zero error, the
only error it can produce) exactly when one of the rates `b_alpha`,
`b_kappa`, `b_gamma` is zero; negative rates are accepted silently. -/
theorem initHyperparams_error_iff_zero_rate (p : HMMhyperparams) :
    (∃ e, initHyperparams p = .error e) ↔
      (p.b_alpha = 0 ∨ p.b_kappa = 0 ∨ p.b_gamma = 0) := by
  unfold initHyperparams
  by_cases ha : p.b_alpha = 0 <;> by_cases hk : p.b_kappa = 0 <;>
    by_cases hg : p.b_gamma = 0 <;>
    simp [ha, hk, hg]

/-- C9: if `saveMin` is absent it is set to the default 1, and no other
settings entry changes; if it is present the settings mapping is left
entirely unchanged. -/
theorem setSaveMinDefault_spec (settings : Settings) :
    ("saveMin" ∉ settings.map Prod.fst →
      (setSaveMinDefault settings).lookup "saveMin" = some 1 ∧
      ∀ k, k ≠ "saveMin" →
        (setSaveMinDefault settings).lookup k = settings.lookup k) ∧
    ("saveMin" ∈ settings.map Prod.fst →
      setSaveMinDefault settings = settings) := by
  constructor
  · intro habs
    rw [setSaveMinDefault, if_neg habs]
    constructor
    · induction settings with
      | nil => rfl
      | cons a s ih =>
        rw [List.map_cons, List.mem_cons, not_or] at habs
        have h1 : ("saveMin" == a.1) = false := by
          rw [beq_eq_false_iff_ne]; exact habs.1
        simpa [List.lookup, h1] using ih habs.2
    · intro k hk
      induction settings with
      | nil =>
        have h1 : (k == "saveMin") = false := by simp [hk]
        simp [List.lookup, h1]
      | cons a s ih =>
        rw [List.map_cons, List.mem_cons, not_or] at habs
        by_cases hka : k = a.1
        · simp [List.lookup, hka]
        · have h1 : (k == a.1) = false := by simp [hka]
          simpa [List.lookup, h1] using ih habs.2
  · intro hpres
    rw [setSaveMinDefault, if_pos hpres]

/-- Witness for C9: with `saveMin` absent from `[("Niter", 5)]` the
default is filled in and the other key is untouched. -/
theorem setSaveMinDefault_spec_witness :
    (setSaveMinDefault [("Niter", 5)]).lookup "saveMin" = some 1 ∧
    (setSaveMinDefault [("Niter", 5)]).lookup "Niter" = some 5 := by
  have h := (setSaveMinDefault_spec [("Niter", 5)]).1 (by decide)
  exact ⟨h.1, by simpa using h.2 "Niter" (by decide)⟩

/-- C7: the two branches test different keys.  On a settings mapping that
contains the key `formZinit` (the spelling the specification documents)
but not `formZInit`, the feature-matrix branch takes the label path while
the initial-state-sequence branch does not. -/
theorem formZinit_key_mismatch :
    feature_branch_uses_labels [("formZinit", 1)] = true ∧
    initseq_branch_uses_labels [("formZinit", 1)] = false := by
  decide

/-- C2: both branches of the bootstrap set the parameter-resampling count
to 1, `sample_theta` is invoked exactly `1 + 1 = 2` times, and the final
`theta` is exactly the second draw applied to the first (each draw fully
replaces the previous value). -/
theorem bootstrapTheta_spec {Θ : Type} (sampleTheta : Θ → Nat → Θ)
    (θ0 : Θ) (numObj : Nat) (b : Bool) :
    numInitThetaSamples true = numInitThetaSamples false ∧
    numInitThetaSamples b = 1 ∧
    (bootstrapTheta sampleTheta θ0 numObj b).2 = 1 + numInitThetaSamples b ∧
    (bootstrapTheta sampleTheta θ0 numObj b).1 =
      sampleTheta (sampleTheta θ0 numObj) 0 := by
  cases b <;> exact ⟨rfl, rfl, rfl, rfl⟩

/- ### Helper lemmas about `cumsum` and slice writing -/

theorem cumsum_length (l : List Nat) : (cumsum l).length = l.length := by
  induction l with
  | nil => rfl
  | cons x xs ih => simp [cumsum, ih]

theorem getLastD_map_add (l : List Nat) :
    ∀ x : Nat, ((cumsum l).map (x + ·)).getLastD x = x + l.sum := by
  induction l with
  | nil => intro x; simp [cumsum]
  | cons y ys ih =>
    intro x
    simp only [cumsum, List.map_cons, List.getLastD_cons, List.map_map]
    have hcomp : ((x + ·) ∘ (y + ·)) = ((x + y) + ·) := by
      funext z; simp [Function.comp, Nat.add_assoc]
    rw [hcomp, ih (x + y)]
    simp [Nat.add_assoc]

theorem cumsum_getLastD (l : List Nat) : (cumsum l).getLastD 0 = l.sum := by
  cases l with
  | nil => rfl
  | cons y ys =>
    simp only [cumsum, List.getLastD_cons]
    rw [getLastD_map_add ys y]
    simp

theorem cumsum_chain' (l : List Nat) : List.Chain' (· ≤ ·) (cumsum l) := by
  induction l with
  | nil => simp [cumsum]
  | cons x xs ih =>
    simp only [cumsum]
    rw [List.chain'_cons']
    constructor
    · intro y hy
      rw [List.head?_map] at hy
      cases h : (cumsum xs).head? with
      | none => rw [h] at hy; simp at hy
      | some z =>
        rw [h] at hy
        simp only [Option.map_some', Option.mem_def, Option.some.injEq] at hy
        omega
    · rw [List.chain'_map]
      exact ih.imp (fun a b hab => Nat.add_le_add_left hab x)

theorem writeSlice_length (arr : List Int) (start : Nat) (vals : List Int)
    (h : start + vals.length ≤ arr.length) :
    (writeSlice arr start vals).length = arr.length := by
  simp only [writeSlice, List.length_append, List.length_take, List.length_drop]
  omega

theorem drop_append_len (A B : List Int) (n : Nat) :
    (A ++ B).drop (A.length + n) = B.drop n := by
  rw [← List.drop_drop, List.drop_left]

theorem foldl_writeSlice (vs : List (List Int)) :
    ∀ (off : Nat) (arr : List Int),
      off + (vs.map List.length).sum ≤ arr.length →
      ((vs.zip (off :: (cumsum (vs.map List.length)).map (off + ·))).foldl
          (fun a p => writeSlice a p.2 p.1) arr)
        = arr.take off ++ vs.flatten ++ arr.drop (off + (vs.map List.length).sum) := by
  induction vs with
  | nil =>
    intro off arr h
    simp
  | cons v vs ih =>
    intro off arr h
    simp only [List.map_cons, List.sum_cons] at h
    simp only [List.map_cons, List.sum_cons, cumsum, List.map_map]
    have hcomp : ((off + ·) ∘ (v.length + ·)) = ((off + v.length) + ·) := by
      funext z; simp [Function.comp, Nat.add_assoc]
    rw [hcomp, List.zip_cons_cons, List.foldl_cons]
    have harr1len : (writeSlice arr off v).length = arr.length :=
      writeSlice_length arr off v (by omega)
    have hrec := ih (off + v.length) (writeSlice arr off v) (by rw [harr1len]; omega)
    rw [hrec]
    have htake : (writeSlice arr off v).take (off + v.length) = arr.take off ++ v := by
      rw [writeSlice]
      refine List.take_left' ?_
      simp only [List.length_append, List.length_take]
      omega
    have hdrop : (writeSlice arr off v).drop (off + v.length + (vs.map List.length).sum)
        = arr.drop (off + (v.length + (vs.map List.length).sum)) := by
      rw [writeSlice]
      have hlen : (arr.take off ++ v).length = off + v.length := by
        simp only [List.length_append, List.length_take]
        omega
      rw [show off + v.length + (vs.map List.length).sum
            = (arr.take off ++ v).length + (vs.map List.length).sum by rw [hlen]]
      rw [drop_append_len, List.drop_drop]
      congr 1
      omega
    rw [htake, hdrop]
    simp [List.append_assoc]

theorem true_labels_tot_eq_flatten (data : List DataObj) :
    true_labels_tot data = (data.map (fun d => d.true_labels)).flatten := by
  have hmaps : (data.map (fun d => d.true_labels)).map List.length = length_ii data := by
    rw [List.map_map]; rfl
  have hlast : (cummlength data).getLastD 0 = (length_ii data).sum :=
    cumsum_getLastD (length_ii data)
  have h := foldl_writeSlice (data.map (fun d => d.true_labels)) 0
      (List.replicate ((cummlength data).getLastD 0) 0)
      (by rw [hmaps, hlast]; simp)
  rw [hmaps] at h
  have h0 : ((cumsum (length_ii data)).map ((0 : Nat) + ·)) = cumsum (length_ii data) := by
    simp
  rw [h0] at h
  rw [true_labels_tot]
  rw [show (0 :: cummlength data) = (0 :: cumsum (length_ii data)) from rfl]
  rw [h]
  rw [hlast]
  simp

theorem flatten_slice (vs : List (List Int)) :
    ∀ (i : Nat) (h : i < vs.length),
      ((vs.flatten).drop (((vs.map List.length).take i).sum)).take
          (vs.get ⟨i, h⟩).length
        = vs.get ⟨i, h⟩ := by
  induction vs with
  | nil => intro i h; exact absurd h (by simp)
  | cons v vs ih =>
    intro i h
    cases i with
    | zero =>
      simp only [List.take_zero, List.sum_nil, List.drop_zero, List.flatten_cons,
        List.get]
      exact List.take_left v vs.flatten
    | succ j =>
      simp only [List.map_cons, List.take_succ_cons, List.sum_cons,
        List.flatten_cons, List.get]
      rw [drop_append_len]
      exact ih j (Nat.lt_of_succ_lt_succ h)

theorem cons_cumsum_getD (l : List Nat) :
    ∀ i : Nat, i ≤ l.length → (0 :: cumsum l).getD i 0 = (l.take i).sum := by
  induction l with
  | nil =>
    intro i h
    have h0 : i = 0 := Nat.le_zero.mp h
    subst h0; rfl
  | cons x xs ih =>
    intro i h
    cases i with
    | zero => rfl
    | succ j =>
      simp only [List.getD_cons_succ, cumsum]
      cases j with
      | zero => simp
      | succ k =>
        have hk : k < xs.length := by
          simp only [List.length_cons] at h
          omega
        have hk' : k < (cumsum xs).length := by rw [cumsum_length]; exact hk
        rw [List.getD_cons_succ]
        rw [List.getD_eq_getD_get?, List.get?_eq_getElem?, List.getElem?_map,
          List.getElem?_eq_getElem hk']
        simp only [Option.map_some', Option.getD_some]
        have hih := ih (k + 1) (by omega)
        rw [List.getD_cons_succ, List.getD_eq_getD_get?, List.get?_eq_getElem?,
          List.getElem?_eq_getElem hk'] at hih
        simp only [Option.getD_some] at hih
        rw [hih]
        simp [List.take_succ_cons]

theorem offsetOf_take_sum (data : List DataObj) (i : Nat) (h : i ≤ data.length) :
    offsetOf data i = ((length_ii data).take i).sum := by
  rw [offsetOf]
  exact cons_cumsum_getD (length_ii data) i
    (by rw [length_ii, List.length_map]; exact h)

/- ### Remaining claim theorems -/

/-- C6: with explicit initial labels, row `jj` of the feature matrix allows
exactly the distinct state indices appearing in object `jj`'s `z_init`
(no more, no fewer); every row with a nonempty label sequence has at least
one allowed column; and on `{0: [0,2,2], 1: [1]}` the allowed columns are
exactly `{0,2}` for object 0 and `{1}` for object 1. -/
theorem F_fromZinit_spec :
    (∀ (data : List DataObj) (jj k : Nat) (h : jj < data.length),
      F_fromZinit data jj k = true ↔ k ∈ (data.get ⟨jj, h⟩).z_init) ∧
    (∀ (data : List DataObj) (jj : Nat) (h : jj < data.length),
      (data.get ⟨jj, h⟩).z_init ≠ [] → ∃ k, F_fromZinit data jj k = true) ∧
    (∀ k, (F_fromZinit exLabels 0 k = true ↔ (k = 0 ∨ k = 2)) ∧
      (F_fromZinit exLabels 1 k = true ↔ k = 1)) := by
  have hmain : ∀ (data : List DataObj) (jj k : Nat) (h : jj < data.length),
      F_fromZinit data jj k = true ↔ k ∈ (data.get ⟨jj, h⟩).z_init := by
    intro data jj k h
    rw [F_fromZinit, List.getD_eq_getElem data default h]
    simp [List.mem_dedup, List.get_eq_getElem]
  refine ⟨hmain, ?_, ?_⟩
  · intro data jj h hne
    obtain ⟨k, hk⟩ := List.exists_mem_of_ne_nil _ hne
    exact ⟨k, (hmain data jj k h).mpr hk⟩
  · intro k
    constructor
    · rw [hmain exLabels 0 k (by decide)]
      simp [exLabels]
    · rw [hmain exLabels 1 k (by decide)]
      simp [exLabels]

/-- Witness for C6 at the example labels: column 2 is allowed for object 0,
and object 1's row is nonempty. -/
theorem F_fromZinit_spec_witness :
    F_fromZinit exLabels 0 2 = true ∧ (∃ k, F_fromZinit exLabels 1 k = true) := by
  refine ⟨?_, F_fromZinit_spec.2.1 exLabels 1 (by decide) (by decide)⟩
  exact (F_fromZinit_spec.1 exLabels 0 2 (by decide)).mpr (by decide)

/-- C3: flattening is a left-inverse of per-object slicing — the slice of
`true_labels_tot` starting at object `i`'s cumulative offset, of that
object's length, is exactly object `i`'s `true_labels`; and in the
two-object scenario with lengths 5 and 3 the flattened array has length 8
with object 2 occupying indices `[5, 8)`. -/
theorem flatten_left_inverse :
    (∀ (data : List DataObj) (i : Nat) (h : i < data.length),
      ((true_labels_tot data).drop (offsetOf data i)).take
          ((data.get ⟨i, h⟩).true_labels.length)
        = (data.get ⟨i, h⟩).true_labels) ∧
    (true_labels_tot exTwoObj).length = 8 ∧
    offsetOf exTwoObj 1 = 5 ∧
    (true_labels_tot exTwoObj).drop 5 = [20, 21, 22] := by
  refine ⟨?_, by decide, by decide, by decide⟩
  intro data i h
  rw [true_labels_tot_eq_flatten, offsetOf_take_sum data i (Nat.le_of_lt h)]
  have hmaps : (data.map (fun d => d.true_labels)).map List.length
      = length_ii data := by
    rw [List.map_map]; rfl
  have hi : i < (data.map (fun d => d.true_labels)).length := by
    rw [List.length_map]; exact h
  have hj := flatten_slice (data.map (fun d => d.true_labels)) i hi
  rw [hmaps] at hj
  simpa using hj

/-- Witness for C3: object 2 of the example recovered from the flattened
array. -/
theorem flatten_left_inverse_witness :
    ((true_labels_tot exTwoObj).drop (offsetOf exTwoObj 1)).take 3
      = [20, 21, 22] := by
  have h := flatten_left_inverse.1 exTwoObj 1 (by decide)
  exact h

/-- C4: the cumulative-lengths array is non-decreasing, its final entry is
the sum of all per-object lengths, and both flattened arrays are allocated
with exactly that total length. -/
theorem cummlength_spec (data : List DataObj) (_h : data ≠ []) :
    List.Chain' (· ≤ ·) (cummlength data) ∧
    (cummlength data).getLastD 0 = (length_ii data).sum ∧
    (z_tot data).length = (length_ii data).sum ∧
    (true_labels_tot data).length = (length_ii data).sum := by
  refine ⟨cumsum_chain' (length_ii data), cumsum_getLastD (length_ii data), ?_, ?_⟩
  · rw [z_tot, List.length_replicate]
    exact cumsum_getLastD (length_ii data)
  · rw [true_labels_tot_eq_flatten, List.length_flatten, List.map_map]
    rfl

/-- Witness for C4 on a concrete two-object set with lengths 2 and 1. -/
theorem cummlength_spec_witness :
    List.Chain' (· ≤ ·) (cummlength [⟨[1, 2], []⟩, ⟨[3], []⟩]) ∧
    (cummlength [⟨[1, 2], []⟩, ⟨[3], []⟩]).getLastD 0 = 3 ∧
    (z_tot [⟨[1, 2], []⟩, ⟨[3], []⟩]).length = 3 := by
  have h := cummlength_spec [⟨[1, 2], []⟩, ⟨[3], []⟩] (by decide)
  refine ⟨h.1, ?_, ?_⟩
  · rw [h.2.1]; decide
  · rw [h.2.2.1]; decide

/-- C10: after the flattening block `z_tot` is still the all-zeros array of
the total length — only `true_labels_tot` is populated from the per-object
`true_labels`. -/
theorem z_tot_untouched (data : List DataObj) :
    z_tot data = List.replicate ((length_ii data).sum) 0 ∧
    (∀ x ∈ z_tot data, x = 0) ∧
    true_labels_tot data = (data.map (fun d => d.true_labels)).flatten := by
  refine ⟨?_, ?_, true_labels_tot_eq_flatten data⟩
  · rw [z_tot]
    congr 1
    exact cumsum_getLastD (length_ii data)
  · intro x hx
    rw [z_tot] at hx
    exact List.eq_of_mem_replicate hx

/-- Witness for C10 on a one-object set of length 2. -/
theorem z_tot_untouched_witness :
    z_tot [⟨[7, 8], []⟩] = [0, 0] ∧ (0 : Int) = 0 := by
  have h := z_tot_untouched [⟨[7, 8], []⟩]
  refine ⟨?_, h.2.1 0 (by decide)⟩
  rw [h.1]; decide

theorem sweepAux_spec {D Z U Θ H : Type} (g : GibbsSamplers D Z U Θ H) :
    ∀ (n i : Nat) (st : SweepState D Z U Θ H),
      (sweepAux g i n st).2.length = n ∧
      (sweepAux g i n st).2.map StepTrace.f_iter = List.range' i n ∧
      (∀ t ∈ (sweepAux g i n st).2,
        t.b_in_dist = t.a_out ∧ t.c_in = t.b_out ∧ t.d_in = t.c_out) ∧
      List.Chain' (fun t t' => t'.a_in_U = t.c_out ∧ t'.b_in_theta = t.d_out)
        (sweepAux g i n st).2 ∧
      (∀ t ∈ (sweepAux g i n st).2.head?,
        t.a_in_U = st.Ustats ∧ t.b_in_theta = st.theta) := by
  intro n
  induction n with
  | zero =>
    intro i st
    exact ⟨rfl, rfl, by simp [sweepAux], by simp [sweepAux], by simp [sweepAux]⟩
  | succ n ih =>
    intro i st
    have hih := ih (i + 1) (sweepStep g i st).1
    refine ⟨?_, ?_, ?_, ?_, ?_⟩
    · simp only [sweepAux, List.length_cons, hih.1]
    · simp only [sweepAux, List.map_cons, hih.2.1]
      rw [List.range'_succ]
      rfl
    · intro t ht
      simp only [sweepAux, List.mem_cons] at ht
      rcases ht with h1 | h2
      · subst h1; exact ⟨rfl, rfl, rfl⟩
      · exact hih.2.2.1 t h2
    · simp only [sweepAux]
      rw [List.chain'_cons']
      refine ⟨?_, hih.2.2.2.1⟩
      intro y hy
      have hh := hih.2.2.2.2 y hy
      exact ⟨hh.1, hh.2⟩
    · intro t ht
      simp only [sweepAux, List.head?_cons, Option.mem_def,
        Option.some.injEq] at ht
      subst ht
      exact ⟨rfl, rfl⟩

/-- C1: across every run of the modelled sweep, the six per-iteration steps
execute in the fixed order (a)-(f): the stats recorder fires once per
iteration with the indices `1 … Niter` in order, within each iteration
step (b) reads exactly step (a)'s output transition distributions (never a
stale value), step (c) reads step (b)'s output, step (d) reads step (c)'s
output, and each iteration's step (a) and step (b) read only the
sufficient statistics and parameters finalized by the previous iteration
(the bootstrapped state for iteration 1). -/
theorem sweep_iteration_order {D Z U Θ H : Type} (g : GibbsSamplers D Z U Θ H)
    (Niter : Nat) (st0 : SweepState D Z U Θ H) :
    (sweepTraced g Niter st0).2.length = Niter ∧
    (sweepTraced g Niter st0).2.map StepTrace.f_iter = List.range' 1 Niter ∧
    (∀ t ∈ (sweepTraced g Niter st0).2,
      t.b_in_dist = t.a_out ∧ t.c_in = t.b_out ∧ t.d_in = t.c_out) ∧
    List.Chain' (fun t t' => t'.a_in_U = t.c_out ∧ t'.b_in_theta = t.d_out)
      (sweepTraced g Niter st0).2 ∧
    (∀ t ∈ (sweepTraced g Niter st0).2.head?,
      t.a_in_U = st0.Ustats ∧ t.b_in_theta = st0.theta) :=
  sweepAux_spec g Niter 1 st0

/-- Witness for C1: a concrete 3-iteration instrumented run records the
iteration indices `[1, 2, 3]` and its first snapshot's step-(b) input
equals its step-(a) output. -/
theorem sweep_iteration_order_witness :
    (sweepTraced gDemo 3 stDemo).2.map StepTrace.f_iter = [1, 2, 3] ∧
    ((sweepTraced gDemo 3 stDemo).2.headD default).b_in_dist
      = ((sweepTraced gDemo 3 stDemo).2.headD default).a_out := by
  constructor
  · have h := (sweep_iteration_order gDemo 3 stDemo).2.1
    simpa using h
  · exact ((sweep_iteration_order gDemo 3 stDemo).2.2.1 _ (by decide)).1

end IBPHMM
